import Mathlib

/-!
Verification development for the cryptofeed repository (BitMEX L2 order-book
engine in `src/cryptofeed/exchange/bitmex.py` and the normalization layer in
`src/cryptofeed/standards.py`).

Conventions of the shallow embedding:
* Python `Decimal` values (prices, sizes, timestamps) are embedded as `ℚ`.
* Python dictionaries become total functions into `Option`; assignment is a
  pointwise overwrite, `del` sets the key back to `none` (and, as in Python,
  `del` of an absent key is a `KeyError`).
* A raising code path is an `Except`-style error value; state mutated before
  the raise is retained, exactly as the in-place mutation of the source does.
-/

/-! ## Order-book engine data model (bitmex.py `_book`) -/

inductive Side where
  | bid
  | ask
deriving DecidableEq

/-- `BID if data['side'] == 'Buy' else ASK` (bitmex.py lines 108, 119, 132). -/
def sideOf (s : String) : Side := if s = "Buy" then Side.bid else Side.ask

/-- One element of a book message's `data` array.  A field the source never
reads for a given action (price and size for delete, price for update) is
carried but ignored by the corresponding branch, as in the source. -/
structure Entry where
  symbol : String
  side : String
  id : Nat
  price : ℚ
  size : ℚ
deriving DecidableEq

/-- A decoded `orderBookL2` message: its `action` tag and its `data` array. -/
structure BookMsg where
  action : String
  data : List Entry
deriving DecidableEq

/-- The per-message delta record `{BID: [], ASK: []}` (bitmex.py line 95). -/
structure Delta where
  bid : List (ℚ × ℚ)
  ask : List (ℚ × ℚ)
deriving DecidableEq

def emptyDelta : Delta := ⟨[], []⟩

def pushDelta (d : Delta) (s : Side) (pr : ℚ × ℚ) : Delta :=
  match s with
  | Side.bid => { d with bid := d.bid ++ [pr] }
  | Side.ask => { d with ask := d.ask ++ [pr] }

/-- Channel constant from `cryptofeed/defines.py` (not under src; value is an
arbitrary distinguished string). -/
def L2_BOOK : String := "l2_book"

/-- The mutable session state of the engine: `self.partial_received`,
`self.l2_book` and `self.order_id` (bitmex.py `_reset`). -/
structure BookState where
  partial_received : Bool
  l2_book : String → Side → ℚ → Option ℚ
  order_id : String → Side → Nat → Option ℚ

/-- Overwrite one key of a three-level dictionary. -/
def upd3 {κ : Type} [DecidableEq κ] (f : String → Side → κ → Option ℚ)
    (pr : String) (sd : Side) (k : κ) (v : Option ℚ) : String → Side → κ → Option ℚ :=
  fun pr2 sd2 k2 => if pr2 = pr ∧ sd2 = sd ∧ k2 = k then v else f pr2 sd2 k2

/-- `_reset` (bitmex.py lines 41-46): flag cleared, every book and index empty. -/
def resetState : BookState :=
  { partial_received := false
    l2_book := fun _ _ _ => none
    order_id := fun _ _ _ => none }

/-- The arguments of the single `book_callback` invocation at the end of
`_book` (bitmex.py line 145). -/
structure Emission where
  pair : Option String
  channel : String
  forced : Bool
  delta : Delta
  timestamp : ℚ
deriving DecidableEq

/-- Errors a modelled code path can raise.  `KeyError` is the Python
`KeyError` raised by a failed dictionary lookup or `del`; the spec names this
condition (for the book engine) `BookDesyncFault`. -/
inductive Err where
  | KeyError
  | IndexError
  | UnsupportedTradingPair
  | UnsupportedDataFeed
  | UnsupportedTradingOption
deriving DecidableEq

/-- The loop-local variables of `_book`: the evolving state plus the local
`delta` and `pair` variables. -/
structure LoopState where
  st : BookState
  delta : Delta
  pair : Option String

/-- Outcome of `_book` on one message: normal return (with the callback
invocation it made, if any), or an uncaught exception.  In both cases the
session state (mutated in place by the source) is carried. -/
inductive BookResult where
  | ok (st : BookState) (em : Option Emission)
  | err (st : BookState) (e : Err)

def BookResult.isOk : BookResult → Bool
  | .ok _ _ => true
  | .err _ _ => false

def BookResult.state : BookResult → BookState
  | .ok s _ => s
  | .err s _ => s

/-- State effect of one partial/insert entry (bitmex.py lines 114-115):
`l2_book[pair][side][price] = size; order_id[pair][side][order_id] = price`. -/
def stIns (st : BookState) (e : Entry) : BookState :=
  { st with
    l2_book := upd3 st.l2_book e.symbol (sideOf e.side) e.price (some e.size)
    order_id := upd3 st.order_id e.symbol (sideOf e.side) e.id (some e.price) }

/-- Body of the partial/insert loop (bitmex.py lines 107-116). -/
def applyInsertEntry (ls : LoopState) (e : Entry) : LoopState :=
  { st := stIns ls.st e
    delta := pushDelta ls.delta (sideOf e.side) (e.price, e.size)
    pair := some e.symbol }

/-- Body of the update loop (bitmex.py lines 118-128).  The index lookup on
line 124 raises `KeyError` when the order id is absent. -/
def applyUpdateEntry (ls : LoopState) (e : Entry) : Except BookState LoopState :=
  match ls.st.order_id e.symbol (sideOf e.side) e.id with
  | none => .error ls.st
  | some price =>
      .ok { st := { ls.st with
              l2_book := upd3 ls.st.l2_book e.symbol (sideOf e.side) price (some e.size)
              order_id := upd3 ls.st.order_id e.symbol (sideOf e.side) e.id (some price) }
            delta := pushDelta ls.delta (sideOf e.side) (price, e.size)
            pair := some e.symbol }

/-- Body of the delete loop (bitmex.py lines 130-139).  The index lookup on
line 135 raises `KeyError` when the order id is absent; the `del` of the book
level on line 137 raises `KeyError` when the level is absent, after the index
entry has already been removed on line 136. -/
def applyDeleteEntry (ls : LoopState) (e : Entry) : Except BookState LoopState :=
  match ls.st.order_id e.symbol (sideOf e.side) e.id with
  | none => .error ls.st
  | some dp =>
      match ls.st.l2_book e.symbol (sideOf e.side) dp with
      | none =>
          .error { ls.st with order_id := upd3 ls.st.order_id e.symbol (sideOf e.side) e.id none }
      | some _ =>
          .ok { st := { ls.st with
                  l2_book := upd3 ls.st.l2_book e.symbol (sideOf e.side) dp none
                  order_id := upd3 ls.st.order_id e.symbol (sideOf e.side) e.id none }
                delta := pushDelta ls.delta (sideOf e.side) (dp, 0)
                pair := some e.symbol }

/-- Sequential entry loop that can raise: the Python `for data in msg['data']`
with in-place mutation, aborting at the first `KeyError`. -/
def foldE (f : LoopState → Entry → Except BookState LoopState) :
    LoopState → List Entry → Except BookState LoopState
  | ls, [] => .ok ls
  | ls, e :: rest =>
      match f ls e with
      | .ok ls2 => foldE f ls2 rest
      | .error st => .error st

/-- `_book` (bitmex.py lines 90-145), one message. -/
def bookStep (st0 : BookState) (msg : BookMsg) (ts : ℚ) : BookResult :=
  if st0.partial_received = false ∧ msg.action ≠ "partial" then
    .ok st0 none
  else
    let forced : Bool := !st0.partial_received
    let st1 : BookState := { st0 with partial_received := true }
    if msg.action = "partial" ∨ msg.action = "insert" then
      let ls := msg.data.foldl applyInsertEntry ⟨st1, emptyDelta, none⟩
      .ok ls.st (some ⟨ls.pair, L2_BOOK, forced, ls.delta, ts⟩)
    else if msg.action = "update" then
      match foldE applyUpdateEntry ⟨st1, emptyDelta, none⟩ msg.data with
      | .ok ls => .ok ls.st (some ⟨ls.pair, L2_BOOK, forced, ls.delta, ts⟩)
      | .error stE => .err stE .KeyError
    else if msg.action = "delete" then
      match foldE applyDeleteEntry ⟨st1, emptyDelta, none⟩ msg.data with
      | .ok ls => .ok ls.st (some ⟨ls.pair, L2_BOOK, forced, ls.delta, ts⟩)
      | .error stE => .err stE .KeyError
    else
      .ok st0 none

/-- The state after processing one message (the timestamp does not influence
the state). -/
def stepState (st : BookState) (msg : BookMsg) : BookState :=
  (bookStep st msg 0).state

def runMsgs (st : BookState) : List BookMsg → BookState
  | [] => st
  | m :: rest => runMsgs (stepState st m) rest

/-! ## Concrete scenario messages (spec §8 scenarios, claims C1, C2, C4) -/

/-- `{action: partial, data:[{symbol:"XBTUSD", side:"Buy", id:1, price:100, size:5}]}` -/
def msgPartial1 : BookMsg := ⟨"partial", [⟨"XBTUSD", "Buy", 1, 100, 5⟩]⟩

/-- `{action:"update", data:[{symbol:"XBTUSD", side:"Buy", id:1, size:3}]}` (no price field). -/
def msgUpdate1 : BookMsg := ⟨"update", [⟨"XBTUSD", "Buy", 1, 0, 3⟩]⟩

/-- `{action:"delete", data:[{symbol:"XBTUSD", side:"Buy", id:1}]}` (no price/size fields). -/
def msgDelete1 : BookMsg := ⟨"delete", [⟨"XBTUSD", "Buy", 1, 0, 0⟩]⟩

def stAfterPartial : BookState := stepState resetState msgPartial1
def stAfterUpdate : BookState := stepState stAfterPartial msgUpdate1
def stAfterDelete : BookState := stepState stAfterUpdate msgDelete1

/-! ## C3: messages before the first Partial are discarded without effect -/

/-- C3: while `partial_received` is false, any book message whose action is
not `partial` (insert, update, delete, or unknown) is a no-op: the state is
returned unchanged (book, index and flag identical) and no callback
invocation occurs. -/
theorem no_op_before_first_partial (st : BookState) (msg : BookMsg) (ts : ℚ)
    (hflag : st.partial_received = false) (hact : msg.action ≠ "partial") :
    bookStep st msg ts = .ok st none := by
  unfold bookStep
  rw [if_pos ⟨hflag, hact⟩]

/-- Witness for C3 at a concrete input: an update received in the reset state
is discarded. -/
theorem no_op_before_first_partial_witness :
    bookStep resetState msgUpdate1 0 = .ok resetState none :=
  no_op_before_first_partial resetState msgUpdate1 0 (by decide) (by decide)

/-! ## C10: a processed message with an empty data array still emits once -/

/-- C10: for any book message whose action is partial, insert, update or
delete and whose data array is empty (with `partial_received` already true
when the action is not partial), `_book` still invokes the book callback
exactly once, with `pair = none` and an empty delta on both sides. -/
theorem empty_data_still_emits (st : BookState) (ts : ℚ) (a : String)
    (ha : a = "partial" ∨ a = "insert" ∨ a = "update" ∨ a = "delete")
    (hflag : a = "partial" ∨ st.partial_received = true) :
    bookStep st ⟨a, []⟩ ts =
      .ok { st with partial_received := true }
        (some ⟨none, L2_BOOK, !st.partial_received, emptyDelta, ts⟩) := by
  have hnotdisc : ¬(st.partial_received = false ∧ (BookMsg.mk a []).action ≠ "partial") := by
    rcases hflag with h | h
    · exact fun hc => hc.2 h
    · exact fun hc => by rw [h] at hc; exact absurd hc.1 (by simp)
  unfold bookStep
  rw [if_neg hnotdisc]
  rcases ha with h | h | h | h <;> subst h <;> simp [foldE]

/-- Witness for C10: an insert with empty data after a partial has been
received emits once with no pair bound and an empty delta. -/
theorem empty_data_still_emits_witness :
    bookStep stAfterPartial ⟨"insert", []⟩ 0 =
      .ok { stAfterPartial with partial_received := true }
        (some ⟨none, L2_BOOK, !stAfterPartial.partial_received, emptyDelta, 0⟩) :=
  empty_data_still_emits stAfterPartial 0 "insert" (Or.inr (Or.inl rfl)) (Or.inr (by decide))

/-! ## Flag preservation through the entry loops -/

theorem foldl_insert_flag (b : Bool) :
    ∀ (l : List Entry) (ls : LoopState), ls.st.partial_received = b →
      ((l.foldl applyInsertEntry ls).st).partial_received = b := by
  intro l
  induction l with
  | nil => intro ls h; exact h
  | cons e rest ih => intro ls h; rw [List.foldl_cons]; exact ih _ h

theorem flagP_update (b : Bool) (ls : LoopState) (e : Entry) (ls2 : LoopState)
    (h : ls.st.partial_received = b) (he : applyUpdateEntry ls e = .ok ls2) :
    ls2.st.partial_received = b := by
  unfold applyUpdateEntry at he
  split at he
  · exact Except.noConfusion he
  · injection he with h2; rw [← h2]; exact h

theorem flagP_delete (b : Bool) (ls : LoopState) (e : Entry) (ls2 : LoopState)
    (h : ls.st.partial_received = b) (he : applyDeleteEntry ls e = .ok ls2) :
    ls2.st.partial_received = b := by
  unfold applyDeleteEntry at he
  split at he
  · exact Except.noConfusion he
  · split at he
    · exact Except.noConfusion he
    · injection he with h2; rw [← h2]; exact h

theorem foldE_flag (f : LoopState → Entry → Except BookState LoopState) (b : Bool)
    (hf : ∀ ls e ls2, ls.st.partial_received = b → f ls e = .ok ls2 →
      ls2.st.partial_received = b) :
    ∀ (l : List Entry) (ls ls2 : LoopState), ls.st.partial_received = b →
      foldE f ls l = .ok ls2 → ls2.st.partial_received = b := by
  intro l
  induction l with
  | nil =>
      intro ls ls2 hb h
      unfold foldE at h
      injection h with h2
      rw [← h2]
      exact hb
  | cons e rest ih =>
      intro ls ls2 hb h
      unfold foldE at h
      cases he : f ls e with
      | ok ls1 => rw [he] at h; exact ih ls1 ls2 (hf ls e ls1 hb he) h
      | error stE => rw [he] at h; exact Except.noConfusion h

/-! ## C5: forced flag semantics -/

theorem bookStep_emission_shape (st st2 : BookState) (msg : BookMsg) (ts : ℚ) :
    (∀ em, bookStep st msg ts = .ok st2 (some em) →
        (em.forced = !st.partial_received ∧ st2.partial_received = true ∧
         (st.partial_received = false → msg.action = "partial"))) ∧
    (bookStep st msg ts = .ok st2 none → st2 = st) := by
  by_cases hd : st.partial_received = false ∧ msg.action ≠ "partial"
  · constructor
    · intro em h
      unfold bookStep at h
      rw [if_pos hd] at h
      injection h with h1 h2
      exact Option.noConfusion h2
    · intro h
      unfold bookStep at h
      rw [if_pos hd] at h
      injection h with h1 h2
      exact h1.symm
  · have hact : st.partial_received = false → msg.action = "partial" := by
      intro hf
      by_contra hnp
      exact hd ⟨hf, hnp⟩
    by_cases h1 : msg.action = "partial" ∨ msg.action = "insert"
    · constructor
      · intro em h
        simp only [bookStep, if_neg hd, if_pos h1] at h
        injection h with hst hem
        injection hem with hem2
        rw [← hem2]
        refine ⟨rfl, ?_, hact⟩
        rw [← hst]
        exact foldl_insert_flag true msg.data ⟨{ st with partial_received := true },
          emptyDelta, none⟩ rfl
      · intro h
        simp only [bookStep, if_neg hd, if_pos h1] at h
        injection h with hst hem
        exact Option.noConfusion hem
    · by_cases h2 : msg.action = "update"
      · constructor
        · intro em h
          simp only [bookStep, if_neg hd, if_neg h1, if_pos h2] at h
          cases hE : foldE applyUpdateEntry
              ⟨{ st with partial_received := true }, emptyDelta, none⟩ msg.data with
          | ok ls =>
              rw [hE] at h
              injection h with hst hem
              injection hem with hem2
              rw [← hem2]
              refine ⟨rfl, ?_, hact⟩
              rw [← hst]
              exact foldE_flag applyUpdateEntry true (flagP_update true) msg.data _ ls rfl hE
          | error stE =>
              rw [hE] at h
              exact BookResult.noConfusion h
        · intro h
          simp only [bookStep, if_neg hd, if_neg h1, if_pos h2] at h
          cases hE : foldE applyUpdateEntry
              ⟨{ st with partial_received := true }, emptyDelta, none⟩ msg.data with
          | ok ls =>
              rw [hE] at h
              injection h with hst hem
              exact Option.noConfusion hem
          | error stE =>
              rw [hE] at h
              exact BookResult.noConfusion h
      · by_cases h3 : msg.action = "delete"
        · constructor
          · intro em h
            simp only [bookStep, if_neg hd, if_neg h1, if_neg h2, if_pos h3] at h
            cases hE : foldE applyDeleteEntry
                ⟨{ st with partial_received := true }, emptyDelta, none⟩ msg.data with
            | ok ls =>
                rw [hE] at h
                injection h with hst hem
                injection hem with hem2
                rw [← hem2]
                refine ⟨rfl, ?_, hact⟩
                rw [← hst]
                exact foldE_flag applyDeleteEntry true (flagP_delete true) msg.data _ ls rfl hE
            | error stE =>
                rw [hE] at h
                exact BookResult.noConfusion h
          · intro h
            simp only [bookStep, if_neg hd, if_neg h1, if_neg h2, if_pos h3] at h
            cases hE : foldE applyDeleteEntry
                ⟨{ st with partial_received := true }, emptyDelta, none⟩ msg.data with
            | ok ls =>
                rw [hE] at h
                injection h with hst hem
                exact Option.noConfusion hem
            | error stE =>
                rw [hE] at h
                exact BookResult.noConfusion h
        · constructor
          · intro em h
            simp only [bookStep, if_neg hd, if_neg h1, if_neg h2, if_neg h3] at h
            injection h with h4 h5
            exact Option.noConfusion h5
          · intro h
            simp only [bookStep, if_neg hd, if_neg h1, if_neg h2, if_neg h3] at h
            injection h with h4 h5
            exact h4.symm

/-- C5: an emission carries `forced = true` exactly when the message is the
first accepted one after a reset (equivalently `partial_received` is still
false on entry, in which case the message is necessarily a Partial); after any
emission `partial_received` is true, so every later emission of the session,
including those for subsequent Partial messages, carries `forced = false`;
and a non-emitting message leaves `partial_received` unchanged. -/
theorem forced_iff_first_accepted (st st2 : BookState) (msg : BookMsg) (ts : ℚ) :
    (∀ em, bookStep st msg ts = .ok st2 (some em) →
        ((em.forced = true ↔ st.partial_received = false) ∧
         st2.partial_received = true ∧
         (st.partial_received = false → msg.action = "partial"))) ∧
    (bookStep st msg ts = .ok st2 none →
        st2.partial_received = st.partial_received) := by
  obtain ⟨hA, hB⟩ := bookStep_emission_shape st st2 msg ts
  constructor
  · intro em h
    obtain ⟨hf, ht, hp⟩ := hA em h
    refine ⟨?_, ht, hp⟩
    rw [hf]
    cases st.partial_received <;> simp
  · intro h
    rw [hB h]

/-- Witness for C5 at a concrete input: the first accepted message (a Partial
in the reset state) emits with `forced = true` and sets the flag. -/
theorem forced_iff_first_accepted_witness :
    ((Emission.mk (some "XBTUSD") L2_BOOK true ⟨[((100 : ℚ), (5 : ℚ))], []⟩ 0).forced = true ↔
      resetState.partial_received = false) ∧
    stAfterPartial.partial_received = true ∧
    (resetState.partial_received = false → msgPartial1.action = "partial") :=
  (forced_iff_first_accepted resetState stAfterPartial msgPartial1 0).1
    ⟨some "XBTUSD", L2_BOOK, true, ⟨[(100, 5)], []⟩, 0⟩ rfl

/-! ## C4: the spec's concrete Partial / Update / Delete scenario -/

theorem upd3_app {κ : Type} [DecidableEq κ] (f : String → Side → κ → Option ℚ)
    (pr : String) (sd : Side) (k : κ) (v : Option ℚ)
    (pr2 : String) (sd2 : Side) (k2 : κ) :
    upd3 f pr sd k v pr2 sd2 k2 =
      if pr2 = pr ∧ sd2 = sd ∧ k2 = k then v else f pr2 sd2 k2 := rfl

theorem stAfterUpdate_book_eq :
    stAfterUpdate.l2_book =
      upd3 (upd3 (fun _ _ _ => none) "XBTUSD" Side.bid 100 (some 5))
        "XBTUSD" Side.bid 100 (some 3) := rfl

theorem stAfterDelete_book_eq :
    stAfterDelete.l2_book =
      upd3 (upd3 (upd3 (fun _ _ _ => none) "XBTUSD" Side.bid 100 (some 5))
        "XBTUSD" Side.bid 100 (some 3)) "XBTUSD" Side.bid 100 none := rfl

/-- C4: from a fresh (reset) session, processing the Partial
`[{symbol:"XBTUSD", side:"Buy", id:1, price:100, size:5}]` and then the Update
`[{symbol:"XBTUSD", side:"Buy", id:1, size:3}]` yields a bid book for
`"XBTUSD"` equal to `{100: 3}` and exactly two callback invocations, the first
with `forced = true` and delta `{bid:[(100,5)]}`, the second with
`forced = false` and delta `{bid:[(100,3)]}`; the subsequent Delete
`[{symbol:"XBTUSD", side:"Buy", id:1}]` removes level 100 entirely from the
bid book and emits delta `{bid:[(100,0)]}`. -/
theorem scenario_partial_update_delete (ts : ℚ) :
    bookStep resetState msgPartial1 ts =
      .ok stAfterPartial (some ⟨some "XBTUSD", L2_BOOK, true, ⟨[(100, 5)], []⟩, ts⟩) ∧
    bookStep stAfterPartial msgUpdate1 ts =
      .ok stAfterUpdate (some ⟨some "XBTUSD", L2_BOOK, false, ⟨[(100, 3)], []⟩, ts⟩) ∧
    (∀ p : ℚ, stAfterUpdate.l2_book "XBTUSD" Side.bid p =
      if p = 100 then some 3 else none) ∧
    bookStep stAfterUpdate msgDelete1 ts =
      .ok stAfterDelete (some ⟨some "XBTUSD", L2_BOOK, false, ⟨[(100, 0)], []⟩, ts⟩) ∧
    (∀ p : ℚ, stAfterDelete.l2_book "XBTUSD" Side.bid p = none) := by
  refine ⟨rfl, rfl, ?_, rfl, ?_⟩
  · intro p
    rw [stAfterUpdate_book_eq, upd3_app, upd3_app]
    by_cases hp : p = (100 : ℚ) <;> simp [hp]
  · intro p
    rw [stAfterDelete_book_eq, upd3_app, upd3_app, upd3_app]
    by_cases hp : p = (100 : ℚ) <;> simp [hp]

/-! ## C2: Update/Delete referencing an unknown order id -/

/-- An update message whose second entry references an unknown order id,
while its first entry references a known one. -/
def msgUpdateBad : BookMsg :=
  ⟨"update", [⟨"XBTUSD", "Buy", 1, 0, 3⟩, ⟨"XBTUSD", "Buy", 2, 0, 7⟩]⟩

/-- Counterexample to C2 as stated: on an update message whose second entry
has an unknown order id, the engine does raise (`KeyError`, the desync
condition) and emits nothing, but the state is NOT left unchanged: the first
entry's mutation (size 5 → 3 at level 100) persists. -/
theorem unknown_id_partial_mutation_counterexample :
    (bookStep stAfterPartial msgUpdateBad 0).isOk = false ∧
    stAfterPartial.l2_book "XBTUSD" Side.bid 100 = some 5 ∧
    (bookStep stAfterPartial msgUpdateBad 0).state.l2_book "XBTUSD" Side.bid 100 = some 3 := by
  exact ⟨rfl, rfl, rfl⟩

/-- C2 amended: an Update or Delete processed after `partial_received` whose
FIRST entry references an unknown order id raises (`KeyError`, playing the
spec's `BookDesyncFault` role) with no emission and with the book and index
unchanged; when the unknown id occurs in a later entry the raise and the
absence of an emission still hold, but mutations from the preceding entries
persist (see the counterexample). -/
theorem unknown_id_first_entry_raises (st : BookState) (ts : ℚ) (a : String)
    (e : Entry) (rest : List Entry)
    (ha : a = "update" ∨ a = "delete")
    (hflag : st.partial_received = true)
    (hmiss : st.order_id e.symbol (sideOf e.side) e.id = none) :
    bookStep st ⟨a, e :: rest⟩ ts = .err st .KeyError := by
  obtain ⟨f, bk, oi⟩ := st
  simp only at hflag hmiss
  subst hflag
  rcases ha with h | h <;> subst h
  · unfold bookStep
    rw [if_neg (by intro hc; exact Bool.noConfusion hc.1)]
    rw [if_neg (by intro hc; dsimp only at hc; rcases hc with h | h <;> exact absurd h (by decide))]
    rw [if_pos rfl]
    simp only [foldE, applyUpdateEntry, hmiss]
  · unfold bookStep
    rw [if_neg (by intro hc; exact Bool.noConfusion hc.1)]
    rw [if_neg (by intro hc; dsimp only at hc; rcases hc with h | h <;> exact absurd h (by decide))]
    rw [if_neg (by intro hc; dsimp only at hc; exact absurd hc (by decide))]
    rw [if_pos rfl]
    simp only [foldE, applyDeleteEntry, hmiss]

/-- Witness for the amended C2 at a concrete input: an update referencing the
unknown order id 99 right after the first partial raises and leaves the state
unchanged. -/
theorem unknown_id_first_entry_raises_witness :
    bookStep stAfterPartial ⟨"update", [⟨"XBTUSD", "Buy", 99, 0, 1⟩]⟩ 0 =
      .err stAfterPartial .KeyError :=
  unknown_id_first_entry_raises stAfterPartial 0 "update" ⟨"XBTUSD", "Buy", 99, 0, 1⟩ []
    (Or.inl rfl) (by decide) (by decide)

/-! ## C1: the book-consistency invariant -/

/-- The invariant exactly as the spec (§3) states it: every order-id index
entry maps to a price that exists as a level, and every level is referenced
by at least one order id. -/
def InvSpec (st : BookState) : Prop :=
  (∀ pr sd oid p, st.order_id pr sd oid = some p → ∃ s, st.l2_book pr sd p = some s) ∧
  (∀ pr sd p s, st.l2_book pr sd p = some s → ∃ oid, st.order_id pr sd oid = some p)

/-- The provable strengthening of `InvSpec`: both directions together with
injectivity of the order-id index (no two ids occupy the same price level). -/
def BookInv (st : BookState) : Prop :=
  InvSpec st ∧
  (∀ pr sd o1 o2 p, st.order_id pr sd o1 = some p → st.order_id pr sd o2 = some p → o1 = o2)

/-- Freshness of a partial/insert entry sequence relative to a state: each
entry (applied in order) carries an order id not currently in the index and a
price not currently in the book. -/
def InsSeqFresh : List Entry → BookState → Prop
  | [], _ => True
  | e :: rest, st =>
      st.order_id e.symbol (sideOf e.side) e.id = none ∧
      st.l2_book e.symbol (sideOf e.side) e.price = none ∧
      InsSeqFresh rest (stIns st e)

theorem Inv_stIns (st : BookState) (e : Entry) (hInv : BookInv st)
    (hid : st.order_id e.symbol (sideOf e.side) e.id = none)
    (hpr : st.l2_book e.symbol (sideOf e.side) e.price = none) :
    BookInv (stIns st e) := by
  obtain ⟨⟨h1, h2⟩, h3⟩ := hInv
  have hbook : (stIns st e).l2_book =
      upd3 st.l2_book e.symbol (sideOf e.side) e.price (some e.size) := rfl
  have hindex : (stIns st e).order_id =
      upd3 st.order_id e.symbol (sideOf e.side) e.id (some e.price) := rfl
  refine ⟨⟨?_, ?_⟩, ?_⟩
  · intro pr sd oid p hl
    rw [hindex, upd3_app] at hl
    rw [hbook]
    by_cases hc : pr = e.symbol ∧ sd = sideOf e.side ∧ oid = e.id
    · rw [if_pos hc] at hl
      injection hl with hp
      exact ⟨e.size, by rw [upd3_app, if_pos ⟨hc.1, hc.2.1, hp.symm⟩]⟩
    · rw [if_neg hc] at hl
      obtain ⟨s, hs⟩ := h1 pr sd oid p hl
      by_cases hc2 : pr = e.symbol ∧ sd = sideOf e.side ∧ p = e.price
      · exact ⟨e.size, by rw [upd3_app, if_pos hc2]⟩
      · exact ⟨s, by rw [upd3_app, if_neg hc2]; exact hs⟩
  · intro pr sd p s hl
    rw [hbook, upd3_app] at hl
    rw [hindex]
    by_cases hc : pr = e.symbol ∧ sd = sideOf e.side ∧ p = e.price
    · refine ⟨e.id, ?_⟩
      rw [upd3_app, if_pos ⟨hc.1, hc.2.1, rfl⟩, hc.2.2]
    · rw [if_neg hc] at hl
      obtain ⟨oid, ho⟩ := h2 pr sd p s hl
      refine ⟨oid, ?_⟩
      rw [upd3_app]
      by_cases hc2 : pr = e.symbol ∧ sd = sideOf e.side ∧ oid = e.id
      · exfalso
        rw [hc2.1, hc2.2.1, hc2.2.2, hid] at ho
        exact Option.noConfusion ho
      · rw [if_neg hc2]; exact ho
  · intro pr sd o1 o2 p hl1 hl2
    rw [hindex, upd3_app] at hl1 hl2
    by_cases hc1 : pr = e.symbol ∧ sd = sideOf e.side ∧ o1 = e.id
    · by_cases hc2 : pr = e.symbol ∧ sd = sideOf e.side ∧ o2 = e.id
      · rw [hc1.2.2, hc2.2.2]
      · rw [if_pos hc1] at hl1
        rw [if_neg hc2] at hl2
        injection hl1 with hp1
        exfalso
        obtain ⟨s, hs⟩ := h1 pr sd o2 p hl2
        rw [← hp1, hc1.1, hc1.2.1, hpr] at hs
        exact Option.noConfusion hs
    · by_cases hc2 : pr = e.symbol ∧ sd = sideOf e.side ∧ o2 = e.id
      · rw [if_neg hc1] at hl1
        rw [if_pos hc2] at hl2
        injection hl2 with hp2
        exfalso
        obtain ⟨s, hs⟩ := h1 pr sd o1 p hl1
        rw [← hp2, hc2.1, hc2.2.1, hpr] at hs
        exact Option.noConfusion hs
      · rw [if_neg hc1] at hl1
        rw [if_neg hc2] at hl2
        exact h3 pr sd o1 o2 p hl1 hl2

theorem Inv_applyUpdate (ls : LoopState) (e : Entry) (ls2 : LoopState)
    (hInv : BookInv ls.st) (he : applyUpdateEntry ls e = .ok ls2) : BookInv ls2.st := by
  obtain ⟨⟨h1, h2⟩, h3⟩ := hInv
  unfold applyUpdateEntry at he
  split at he
  · exact Except.noConfusion he
  · rename_i price hl
    injection he with h2e
    rw [← h2e]
    refine ⟨⟨?_, ?_⟩, ?_⟩
    · intro pr sd oid p hlo
      dsimp only at hlo ⊢
      rw [upd3_app] at hlo
      by_cases hc : pr = e.symbol ∧ sd = sideOf e.side ∧ oid = e.id
      · rw [if_pos hc] at hlo
        injection hlo with hp
        exact ⟨e.size, by rw [upd3_app, if_pos ⟨hc.1, hc.2.1, hp.symm⟩]⟩
      · rw [if_neg hc] at hlo
        obtain ⟨s, hs⟩ := h1 pr sd oid p hlo
        by_cases hc2 : pr = e.symbol ∧ sd = sideOf e.side ∧ p = price
        · exact ⟨e.size, by rw [upd3_app, if_pos hc2]⟩
        · exact ⟨s, by rw [upd3_app, if_neg hc2]; exact hs⟩
    · intro pr sd p s hlb
      dsimp only at hlb ⊢
      rw [upd3_app] at hlb
      by_cases hc : pr = e.symbol ∧ sd = sideOf e.side ∧ p = price
      · refine ⟨e.id, ?_⟩
        rw [upd3_app, if_pos ⟨hc.1, hc.2.1, rfl⟩, hc.2.2]
      · rw [if_neg hc] at hlb
        obtain ⟨oid, ho⟩ := h2 pr sd p s hlb
        refine ⟨oid, ?_⟩
        rw [upd3_app]
        by_cases hc2 : pr = e.symbol ∧ sd = sideOf e.side ∧ oid = e.id
        · rw [if_pos hc2]
          rw [hc2.1, hc2.2.1, hc2.2.2, hl] at ho
          injection ho with hp
          rw [hp]
        · rw [if_neg hc2]; exact ho
    · intro pr sd o1 o2 p hl1 hl2
      dsimp only at hl1 hl2
      rw [upd3_app] at hl1 hl2
      by_cases hc1 : pr = e.symbol ∧ sd = sideOf e.side ∧ o1 = e.id
      · by_cases hc2 : pr = e.symbol ∧ sd = sideOf e.side ∧ o2 = e.id
        · rw [hc1.2.2, hc2.2.2]
        · rw [if_pos hc1] at hl1
          rw [if_neg hc2] at hl2
          injection hl1 with hp1
          rw [hc1.2.2]
          refine (h3 pr sd o2 e.id p hl2 ?_).symm
          rw [hc1.1, hc1.2.1, hl, hp1]
      · by_cases hc2 : pr = e.symbol ∧ sd = sideOf e.side ∧ o2 = e.id
        · rw [if_neg hc1] at hl1
          rw [if_pos hc2] at hl2
          injection hl2 with hp2
          rw [hc2.2.2]
          refine h3 pr sd o1 e.id p hl1 ?_
          rw [hc2.1, hc2.2.1, hl, hp2]
        · rw [if_neg hc1] at hl1
          rw [if_neg hc2] at hl2
          exact h3 pr sd o1 o2 p hl1 hl2

theorem Inv_applyDelete (ls : LoopState) (e : Entry) (ls2 : LoopState)
    (hInv : BookInv ls.st) (he : applyDeleteEntry ls e = .ok ls2) : BookInv ls2.st := by
  obtain ⟨⟨h1, h2⟩, h3⟩ := hInv
  unfold applyDeleteEntry at he
  split at he
  · exact Except.noConfusion he
  · rename_i dp hl
    split at he
    · exact Except.noConfusion he
    · rename_i sz hb
      injection he with h2e
      rw [← h2e]
      refine ⟨⟨?_, ?_⟩, ?_⟩
      · intro pr sd oid p hlo
        dsimp only at hlo ⊢
        rw [upd3_app] at hlo
        by_cases hc : pr = e.symbol ∧ sd = sideOf e.side ∧ oid = e.id
        · rw [if_pos hc] at hlo; exact Option.noConfusion hlo
        · rw [if_neg hc] at hlo
          obtain ⟨s, hs⟩ := h1 pr sd oid p hlo
          by_cases hc2 : pr = e.symbol ∧ sd = sideOf e.side ∧ p = dp
          · exfalso
            have hoe : oid = e.id := by
              refine h3 pr sd oid e.id p hlo ?_
              rw [hc2.1, hc2.2.1, hl, hc2.2.2]
            exact hc ⟨hc2.1, hc2.2.1, hoe⟩
          · exact ⟨s, by rw [upd3_app, if_neg hc2]; exact hs⟩
      · intro pr sd p s hlb
        dsimp only at hlb ⊢
        rw [upd3_app] at hlb
        by_cases hc : pr = e.symbol ∧ sd = sideOf e.side ∧ p = dp
        · rw [if_pos hc] at hlb; exact Option.noConfusion hlb
        · rw [if_neg hc] at hlb
          obtain ⟨oid, ho⟩ := h2 pr sd p s hlb
          refine ⟨oid, ?_⟩
          rw [upd3_app]
          by_cases hc2 : pr = e.symbol ∧ sd = sideOf e.side ∧ oid = e.id
          · exfalso
            rw [hc2.1, hc2.2.1, hc2.2.2, hl] at ho
            injection ho with hdp
            exact hc ⟨hc2.1, hc2.2.1, hdp.symm⟩
          · rw [if_neg hc2]; exact ho
      · intro pr sd o1 o2 p hl1 hl2
        dsimp only at hl1 hl2
        rw [upd3_app] at hl1 hl2
        by_cases hc1 : pr = e.symbol ∧ sd = sideOf e.side ∧ o1 = e.id
        · rw [if_pos hc1] at hl1; exact Option.noConfusion hl1
        · by_cases hc2 : pr = e.symbol ∧ sd = sideOf e.side ∧ o2 = e.id
          · rw [if_pos hc2] at hl2; exact Option.noConfusion hl2
          · rw [if_neg hc1] at hl1
            rw [if_neg hc2] at hl2
            exact h3 pr sd o1 o2 p hl1 hl2

theorem Inv_foldE (f : LoopState → Entry → Except BookState LoopState)
    (hf : ∀ ls e ls2, BookInv ls.st → f ls e = .ok ls2 → BookInv ls2.st) :
    ∀ (l : List Entry) (ls ls2 : LoopState), BookInv ls.st →
      foldE f ls l = .ok ls2 → BookInv ls2.st := by
  intro l
  induction l with
  | nil =>
      intro ls ls2 hI h
      unfold foldE at h
      injection h with h2
      rw [← h2]
      exact hI
  | cons e rest ih =>
      intro ls ls2 hI h
      unfold foldE at h
      cases he : f ls e with
      | ok ls1 => rw [he] at h; exact ih ls1 ls2 (hf ls e ls1 hI he) h
      | error stE => rw [he] at h; exact Except.noConfusion h

theorem Inv_foldl_insert :
    ∀ (l : List Entry) (ls : LoopState), BookInv ls.st → InsSeqFresh l ls.st →
      BookInv ((l.foldl applyInsertEntry ls).st) := by
  intro l
  induction l with
  | nil => intro ls hI _; exact hI
  | cons e rest ih =>
      intro ls hI hf
      obtain ⟨hid, hpr, hrest⟩ := hf
      rw [List.foldl_cons]
      exact ih (applyInsertEntry ls e) (Inv_stIns ls.st e hI hid hpr) hrest

theorem InsSeqFresh_flag : ∀ (l : List Entry) (st : BookState) (b : Bool),
    InsSeqFresh l st → InsSeqFresh l { st with partial_received := b } := by
  intro l
  induction l with
  | nil => intro st b h; trivial
  | cons e rest ih =>
      intro st b h
      obtain ⟨hid, hpr, hrest⟩ := h
      exact ⟨hid, hpr, ih (stIns st e) b hrest⟩

theorem Inv_flag (st : BookState) (b : Bool) (h : BookInv st) :
    BookInv { st with partial_received := b } := h

/-- Per-step well-formedness, matching the claim's "well-formed messages":
partial/insert entries are fresh (new order id at a new price level), and the
message is processed without a desync `KeyError`. -/
def WFStep (st : BookState) (m : BookMsg) : Prop :=
  ((m.action = "partial" ∨ m.action = "insert") → InsSeqFresh m.data st) ∧
  (bookStep st m 0).isOk = true

def WFTrace : List BookMsg → BookState → Prop
  | [], _ => True
  | m :: rest, st => WFStep st m ∧ WFTrace rest (stepState st m)

theorem Inv_stepState (st : BookState) (m : BookMsg)
    (hInv : BookInv st) (hwf : WFStep st m) : BookInv (stepState st m) := by
  obtain ⟨hfresh, hok⟩ := hwf
  by_cases hd : st.partial_received = false ∧ m.action ≠ "partial"
  · unfold stepState bookStep
    rw [if_pos hd]
    exact hInv
  · by_cases h1 : m.action = "partial" ∨ m.action = "insert"
    · have hstep : stepState st m =
          ((m.data.foldl applyInsertEntry
            ⟨{ st with partial_received := true }, emptyDelta, none⟩)).st := by
        simp only [stepState, bookStep, if_neg hd, if_pos h1, BookResult.state]
      rw [hstep]
      exact Inv_foldl_insert m.data ⟨{ st with partial_received := true }, emptyDelta, none⟩
        (Inv_flag st true hInv) (InsSeqFresh_flag m.data st true (hfresh h1))
    · by_cases h2 : m.action = "update"
      · cases hE : foldE applyUpdateEntry
            ⟨{ st with partial_received := true }, emptyDelta, none⟩ m.data with
        | ok ls =>
            have hstep : stepState st m = ls.st := by
              simp only [stepState, bookStep, if_neg hd, if_neg h1, if_pos h2, hE,
                BookResult.state]
            rw [hstep]
            exact Inv_foldE applyUpdateEntry Inv_applyUpdate m.data _ ls
              (Inv_flag st true hInv) hE
        | error stE =>
            exfalso
            have hko : (bookStep st m 0).isOk = false := by
              simp only [bookStep, if_neg hd, if_neg h1, if_pos h2, hE, BookResult.isOk]
            rw [hok] at hko
            exact Bool.noConfusion hko
      · by_cases h3 : m.action = "delete"
        · cases hE : foldE applyDeleteEntry
              ⟨{ st with partial_received := true }, emptyDelta, none⟩ m.data with
          | ok ls =>
              have hstep : stepState st m = ls.st := by
                simp only [stepState, bookStep, if_neg hd, if_neg h1, if_neg h2, if_pos h3,
                  hE, BookResult.state]
              rw [hstep]
              exact Inv_foldE applyDeleteEntry Inv_applyDelete m.data _ ls
                (Inv_flag st true hInv) hE
          | error stE =>
              exfalso
              have hko : (bookStep st m 0).isOk = false := by
                simp only [bookStep, if_neg hd, if_neg h1, if_neg h2, if_pos h3, hE,
                  BookResult.isOk]
              rw [hok] at hko
              exact Bool.noConfusion hko
        · have hstep : stepState st m = st := by
            simp only [stepState, bookStep, if_neg hd, if_neg h1, if_neg h2, if_neg h3,
              BookResult.state]
          rw [hstep]
          exact hInv

theorem Inv_runMsgs : ∀ (msgs : List BookMsg) (st : BookState),
    BookInv st → WFTrace msgs st → BookInv (runMsgs st msgs) := by
  intro msgs
  induction msgs with
  | nil => intro st h _; exact h
  | cons m rest ih =>
      intro st h hwf
      obtain ⟨hstep, hrest⟩ := hwf
      exact ih (stepState st m) (Inv_stepState st m h hstep) hrest

theorem WFTrace_append : ∀ (pre post : List BookMsg) (st : BookState),
    WFTrace (pre ++ post) st → WFTrace pre st := by
  intro pre
  induction pre with
  | nil => intro post st _; trivial
  | cons m rest ih =>
      intro post st h
      obtain ⟨hstep, hrest⟩ := h
      exact ⟨hstep, ih post (stepState st m) hrest⟩

theorem Inv_reset : BookInv resetState := by
  refine ⟨⟨?_, ?_⟩, ?_⟩
  · intro pr sd oid p h; exact Option.noConfusion h
  · intro pr sd p s h; exact Option.noConfusion h
  · intro pr sd o1 o2 p h1 h2; exact Option.noConfusion h1

/-- C1 amended: for a sequence of book messages processed from the reset
state that is well-formed in the strengthened sense — update/delete entries
reference known order ids (no desync raise) and every partial/insert entry
carries a fresh order id at a fresh price level — the book-consistency
invariant (every index entry maps to an existing level and every level is
referenced by at least one id) holds after each message, i.e. after every
prefix of the sequence.  Without the freshness restriction the invariant
fails; see the counterexample. -/
theorem book_invariant_preserved (msgs pre post : List BookMsg)
    (hsplit : msgs = pre ++ post)
    (hwf : WFTrace msgs resetState) :
    InvSpec (runMsgs resetState pre) := by
  subst hsplit
  exact (Inv_runMsgs pre resetState Inv_reset (WFTrace_append pre post resetState hwf)).1

/-- Witness for the amended C1 at a concrete input: after the partial of the
spec scenario (with the update still pending in the trace), the invariant
holds. -/
theorem book_invariant_preserved_witness :
    InvSpec (runMsgs resetState [msgPartial1]) :=
  book_invariant_preserved [msgPartial1, msgUpdate1] [msgPartial1] [msgUpdate1] rfl
    ⟨⟨fun _ => ⟨rfl, rfl, trivial⟩, rfl⟩,
     ⟨fun h => absurd h (by decide), rfl⟩, trivial⟩

/-- A partial whose two orders sit at the same price level, followed by a
delete of the first of them. -/
def msgPartialShared : BookMsg :=
  ⟨"partial", [⟨"XBTUSD", "Buy", 1, 100, 5⟩, ⟨"XBTUSD", "Buy", 2, 100, 3⟩]⟩

def msgDeleteShared : BookMsg := ⟨"delete", [⟨"XBTUSD", "Buy", 1, 0, 0⟩]⟩

/-- Counterexample to C1 as stated: both messages are well-formed (each
processes without error; the delete references a known order id), yet after
the delete the index still holds order id 2 at price 100 while the book has
no level 100 — the invariant `InvSpec` fails.  The delete of one order
removed the price level shared with another order. -/
theorem book_invariant_counterexample :
    (bookStep resetState msgPartialShared 0).isOk = true ∧
    (bookStep (stepState resetState msgPartialShared) msgDeleteShared 0).isOk = true ∧
    (stepState (stepState resetState msgPartialShared) msgDeleteShared).order_id
        "XBTUSD" Side.bid 2 = some 100 ∧
    (stepState (stepState resetState msgPartialShared) msgDeleteShared).l2_book
        "XBTUSD" Side.bid 100 = none ∧
    ¬ InvSpec (stepState (stepState resetState msgPartialShared) msgDeleteShared) := by
  refine ⟨rfl, rfl, rfl, rfl, ?_⟩
  intro h
  obtain ⟨s, hs⟩ := h.1 "XBTUSD" Side.bid 2 100 (by decide)
  rw [show (stepState (stepState resetState msgPartialShared) msgDeleteShared).l2_book
      "XBTUSD" Side.bid 100 = none from rfl] at hs
  exact Option.noConfusion hs

/-! ## Normalization registry (standards.py)

The exchange-id and channel constants come from `cryptofeed/defines.py`,
which is not under src; each is modelled as an arbitrary distinguished
string. -/

/-- Modelled from the spec: defines.py constant (file not under src). -/
def BITMEX : String := "BITMEX"

/-- Modelled from the spec: defines.py constant (file not under src). -/
def DERIBIT : String := "DERIBIT"

/-- Modelled from the spec: defines.py constant (file not under src). -/
def KRAKEN_FUTURES : String := "KRAKEN_FUTURES"

/-- Modelled from the spec: defines.py constant (file not under src). -/
def COINBASE : String := "COINBASE"

/-- Modelled from the spec: defines.py constant (file not under src). -/
def HITBTC : String := "HITBTC"

/-- Modelled from the spec: defines.py constant (file not under src). -/
def OKCOIN : String := "OKCOIN"

/-- Modelled from the spec: defines.py constant (file not under src). -/
def OKEX : String := "OKEX"

/-- Modelled from the spec: defines.py constant (file not under src). -/
def BYBIT : String := "BYBIT"

/-- Modelled from the spec: defines.py constant (file not under src). -/
def FTX : String := "FTX"

/-- Modelled from the spec: defines.py constant (file not under src). -/
def HUOBI : String := "HUOBI"

/-- Modelled from the spec: defines.py constant (file not under src). -/
def HUOBI_US : String := "HUOBI_US"

/-- Modelled from the spec: defines.py constant (file not under src). -/
def HUOBI_DM : String := "HUOBI_DM"

/-- Modelled from the spec: defines.py constant (file not under src). -/
def BITFINEX : String := "BITFINEX"

/-- Modelled from the spec: defines.py constant (file not under src). -/
def COINBENE : String := "COINBENE"

/-- Modelled from the spec: defines.py constant (file not under src). -/
def BINANCE : String := "BINANCE"

/-- Modelled from the spec: defines.py constant (file not under src). -/
def GEMINI : String := "GEMINI"

/-- Modelled from the spec: defines.py constant (file not under src). -/
def BITSTAMP : String := "BITSTAMP"

/-- Modelled from the spec: defines.py constant (file not under src). -/
def KRAKEN : String := "KRAKEN"

/-- Modelled from the spec: defines.py constant (file not under src). -/
def POLONIEX : String := "POLONIEX"

/-- Modelled from the spec: defines.py constant (file not under src). -/
def EXX : String := "EXX"

/-- Modelled from the spec: defines.py channel constant (file not under src). -/
def L3_BOOK : String := "l3_book"

/-- Modelled from the spec: defines.py channel constant (file not under src). -/
def TRADES : String := "trades"

/-- Modelled from the spec: defines.py channel constant (file not under src). -/
def TICKER : String := "ticker"

/-- Modelled from the spec: defines.py channel constant (file not under src). -/
def VOLUME : String := "volume"

/-- Modelled from the spec: defines.py channel constant (file not under src). -/
def FUNDING : String := "funding"

/-- Modelled from the spec: defines.py channel constant (file not under src). -/
def INSTRUMENT : String := "instrument"

/-- Modelled from the spec: defines.py channel constant (file not under src). -/
def TRADES_SWAP : String := "trades_swap"

/-- Modelled from the spec: defines.py channel constant (file not under src). -/
def TICKER_SWAP : String := "ticker_swap"

/-- Modelled from the spec: defines.py channel constant (file not under src). -/
def L2_BOOK_SWAP : String := "l2_book_swap"

/-- Modelled from the spec: the UNSUPPORTED sentinel of defines.py (file not
under src), an arbitrary string distinct from every native channel value. -/
def UNSUPPORTED : String := "unsupported"

/-- The module-level registry tables `_std_trading_pairs` and
`_exchange_to_std` (standards.py lines 25-26). -/
structure Registry where
  std_trading_pairs : String → Option (String → Option String)
  exchange_to_std : String → Option String

def emptyRegistry : Registry := ⟨fun _ => none, fun _ => none⟩

/-- Overwrite one key of a string-keyed dictionary. -/
def updMap {β : Type} (f : String → Option β) (k : String) (v : β) :
    String → Option β :=
  fun k2 => if k2 = k then some v else f k2

theorem updMap_app {β : Type} (f : String → Option β) (k : String) (v : β) (k2 : String) :
    updMap f k v k2 = if k2 = k then some v else f k2 := rfl

/-- Modelled from the spec: `cryptofeed.pairs.gen_pairs` is not under src; an
exchange's pair mapping is an arbitrary association of canonical pairs to
native spellings, supplied as a parameter. -/
def GenPairs : Type := String → List (String × String)

/-- The dynamically-validated exchanges `{BITMEX, DERIBIT, KRAKEN_FUTURES}`
(standards.py lines 30 and 43). -/
def dynamicExchanges : List String := [BITMEX, DERIBIT, KRAKEN_FUTURES]

/-- One iteration of the loop body in `load_exchange_pair_mapping`
(standards.py lines 33-38). -/
def addEntry (exchange : String) (r : Registry) (pe : String × String) : Registry :=
  { std_trading_pairs :=
      updMap r.std_trading_pairs pe.1
        (fun ex2 => if ex2 = exchange then some pe.2 else
          match r.std_trading_pairs pe.1 with
          | some m => m ex2
          | none => none)
    exchange_to_std := updMap r.exchange_to_std pe.2 pe.1 }

/-- `load_exchange_pair_mapping` (standards.py lines 29-38). -/
def load_exchange_pair_mapping (gen : GenPairs) (exchange : String) (r : Registry) :
    Registry :=
  if exchange ∈ dynamicExchanges then r
  else (gen exchange).foldl (addEntry exchange) r

/-- Loading the mappings of several exchanges in sequence. -/
def loadAll (gen : GenPairs) (exs : List String) (r : Registry) : Registry :=
  exs.foldl (fun r2 ex => load_exchange_pair_mapping gen ex r2) r

/-- `pair_std_to_exchange` (standards.py lines 41-54). -/
def pair_std_to_exchange (r : Registry) (pair exchange : String) : Except Err String :=
  if exchange ∈ dynamicExchanges then .ok pair
  else
    match r.std_trading_pairs pair with
    | some m =>
        match m exchange with
        | some native => .ok native
        | none => .error .UnsupportedTradingPair
    | none =>
        if exchange = BITFINEX ∧ '-' ∉ pair.data then .ok ("f" ++ pair)
        else .error .UnsupportedTradingPair

/-- `pair_exchange_to_std` (standards.py lines 57-63).  `pair[0]` on the
empty string raises `IndexError`; `pair[1:]` drops the first character. -/
def pair_exchange_to_std (r : Registry) (pair : String) : Except Err (Option String) :=
  match r.exchange_to_std pair with
  | some std => .ok (some std)
  | none =>
      match pair.data with
      | [] => .error .IndexError
      | c :: rest => if c = 'f' then .ok (some (String.mk rest)) else .ok none

/-- The exchanges whose timestamps go through `pd.Timestamp(...).timestamp()`
(standards.py line 67). -/
def pandasExchanges : List String := [BITMEX, COINBASE, HITBTC, OKCOIN, OKEX, BYBIT, FTX]

/-- The millisecond-unit exchanges (standards.py line 69). -/
def millisExchanges : List String :=
  [HUOBI, HUOBI_US, HUOBI_DM, BITFINEX, COINBENE, DERIBIT, BINANCE, GEMINI]

/-- The microsecond-unit exchanges (standards.py line 71). -/
def microsExchanges : List String := [BITSTAMP]

/-- `timestamp_normalize` (standards.py lines 66-73).  The pandas parse of
the first branch is an external collaborator, passed as `pandasParse`;
division is the exact decimal arithmetic fixed by the spec (§9). -/
def timestamp_normalize (pandasParse : ℚ → ℚ) (exchange : String) (ts : ℚ) : ℚ :=
  if exchange ∈ pandasExchanges then pandasParse ts
  else if exchange ∈ millisExchanges then ts / 1000
  else if exchange ∈ microsExchanges then ts / 1000000
  else ts

/-- A value of the channel table: native channel strings, or the numeric
channel ids used by the Poloniex ticker/volume rows. -/
inductive ChanVal where
  | str (s : String)
  | num (n : Nat)
deriving DecidableEq

/-- Association-list lookup, modelling Python dict indexing. -/
def listLookup {α : Type} (k : String) : List (String × α) → Option α
  | [] => none
  | (a, v) :: t => if a = k then some v else listLookup k t

/-- `_feed_to_exchange_map` (standards.py lines 76-181). -/
def feed_to_exchange_map : List (String × List (String × ChanVal)) :=
  [(L2_BOOK,
     [(BITFINEX, .str "book-P0-F0-100"), (POLONIEX, .str L2_BOOK),
      (HITBTC, .str "subscribeOrderbook"), (COINBASE, .str "level2"),
      (BITMEX, .str "orderBookL2"), (BITSTAMP, .str "order_book"),
      (KRAKEN, .str "book"), (KRAKEN_FUTURES, .str "book"),
      (BINANCE, .str "depth"), (EXX, .str "ENTRUST_ADD"),
      (HUOBI, .str "depth.step0"), (HUOBI_US, .str "depth.step0"),
      (HUOBI_DM, .str "depth.step0"), (OKCOIN, .str "spot/depth"),
      (OKEX, .str "spot/depth"), (COINBENE, .str L2_BOOK),
      (DERIBIT, .str "book"), (BYBIT, .str "order_book_25L1"),
      (FTX, .str "orderbook"), (GEMINI, .str L2_BOOK)]),
   (L3_BOOK,
     [(BITFINEX, .str "book-R0-F0-100"), (BITSTAMP, .str "detail_order_book"),
      (HITBTC, .str UNSUPPORTED), (COINBASE, .str "full"),
      (BITMEX, .str UNSUPPORTED), (POLONIEX, .str UNSUPPORTED),
      (KRAKEN, .str UNSUPPORTED), (KRAKEN_FUTURES, .str UNSUPPORTED),
      (BINANCE, .str UNSUPPORTED), (EXX, .str UNSUPPORTED),
      (HUOBI, .str UNSUPPORTED), (HUOBI_US, .str UNSUPPORTED),
      (HUOBI_DM, .str UNSUPPORTED), (OKCOIN, .str UNSUPPORTED),
      (OKEX, .str UNSUPPORTED), (BYBIT, .str UNSUPPORTED),
      (FTX, .str UNSUPPORTED), (GEMINI, .str UNSUPPORTED)]),
   (TRADES,
     [(POLONIEX, .str TRADES), (HITBTC, .str "subscribeTrades"),
      (BITSTAMP, .str "live_trades"), (BITFINEX, .str "trades"),
      (COINBASE, .str "matches"), (BITMEX, .str "trade"),
      (KRAKEN, .str "trade"), (KRAKEN_FUTURES, .str "trade"),
      (BINANCE, .str "aggTrade"), (EXX, .str "TRADE"),
      (HUOBI, .str "trade.detail"), (HUOBI_US, .str "trade.detail"),
      (HUOBI_DM, .str "trade.detail"), (OKCOIN, .str "spot/trade"),
      (OKEX, .str "spot/trade"), (COINBENE, .str TRADES),
      (DERIBIT, .str "trades"), (BYBIT, .str "trade"),
      (FTX, .str "trades"), (GEMINI, .str TRADES)]),
   (TICKER,
     [(POLONIEX, .num 1002), (HITBTC, .str "subscribeTicker"),
      (BITFINEX, .str "ticker"), (BITSTAMP, .str UNSUPPORTED),
      (COINBASE, .str "ticker"), (BITMEX, .str UNSUPPORTED),
      (KRAKEN, .str TICKER), (KRAKEN_FUTURES, .str "ticker_lite"),
      (BINANCE, .str "ticker"), (HUOBI, .str UNSUPPORTED),
      (HUOBI_US, .str UNSUPPORTED), (HUOBI_DM, .str UNSUPPORTED),
      (OKCOIN, .str "spot/ticker"), (OKEX, .str "spot/ticker"),
      (COINBENE, .str TICKER), (DERIBIT, .str "ticker"),
      (BYBIT, .str UNSUPPORTED), (FTX, .str "ticker"),
      (GEMINI, .str UNSUPPORTED)]),
   (VOLUME, [(POLONIEX, .num 1003)]),
   (FUNDING, [(BITMEX, .str "funding"), (BITFINEX, .str "trades")]),
   (TRADES_SWAP, [(OKEX, .str "swap/trade")]),
   (TICKER_SWAP, [(OKEX, .str "swap/ticker")]),
   (L2_BOOK_SWAP, [(OKEX, .str "swap/depth")]),
   (INSTRUMENT, [(BITMEX, .str "instrument")])]

/-- Result of `feed_to_exchange`: the returned value or raised error, plus
whether an error-level log line was written before raising. -/
structure FeedLookup where
  result : Except Err ChanVal
  errorLogged : Bool

/-- `feed_to_exchange` (standards.py lines 230-239).  A missing key in a
Python dict indexing is a `KeyError`. -/
def feed_to_exchange (r : Registry) (exchange feed : String) : FeedLookup :=
  if exchange = POLONIEX ∧ listLookup feed feed_to_exchange_map = none then
    match pair_std_to_exchange r feed POLONIEX with
    | .ok s => ⟨.ok (.str s), false⟩
    | .error e2 => ⟨.error e2, false⟩
  else
    match listLookup feed feed_to_exchange_map with
    | none => ⟨.error .KeyError, false⟩
    | some inner =>
        match listLookup exchange inner with
        | none => ⟨.error .KeyError, false⟩
        | some ret =>
            if ret = .str UNSUPPORTED then ⟨.error .UnsupportedDataFeed, true⟩
            else ⟨.ok ret, false⟩

def exceptOk {α : Type} : Except Err α → Bool
  | .ok _ => true
  | .error _ => false

/-! ## C7: timestamp normalization -/

/-- C7: `timestamp_normalize` yields exact decimal seconds: every
millisecond-unit exchange maps 1500000000123 to exactly 1500000000.123, the
microsecond-unit exchange maps 1500000000123456 to exactly 1500000000.123456,
and every exchange in none of the recognized unit groups gets its raw input
back unchanged. -/
theorem timestamp_normalize_exact (pandasParse : ℚ → ℚ) :
    (∀ ex ∈ millisExchanges,
        timestamp_normalize pandasParse ex 1500000000123 = 1500000000.123) ∧
    timestamp_normalize pandasParse BITSTAMP 1500000000123456 = 1500000000.123456 ∧
    (∀ ex ts, ex ∉ pandasExchanges → ex ∉ millisExchanges → ex ∉ microsExchanges →
        timestamp_normalize pandasParse ex ts = ts) := by
  refine ⟨?_, ?_, ?_⟩
  · intro ex hex
    fin_cases hex <;>
      · unfold timestamp_normalize
        rw [if_neg (by decide), if_pos (by decide)]
        norm_num
  · unfold timestamp_normalize
    rw [if_neg (by decide), if_neg (by decide), if_pos (by decide)]
    norm_num
  · intro ex ts h1 h2 h3
    unfold timestamp_normalize
    rw [if_neg h1, if_neg h2, if_neg h3]

/-- Witness for C7 at a concrete input: the millisecond conversion for HUOBI. -/
theorem timestamp_normalize_exact_witness :
    timestamp_normalize id HUOBI 1500000000123 = 1500000000.123 :=
  (timestamp_normalize_exact id).1 HUOBI (by decide)

/-! ## C9: totality of `pair_exchange_to_std` -/

/-- Counterexample to C9 as stated: on the empty string (absent from the
reverse table), `pair[0]` raises `IndexError`, so the function is not total. -/
theorem pair_exchange_to_std_counterexample :
    pair_exchange_to_std emptyRegistry "" = .error .IndexError := rfl

/-- C9 amended: for every NONEMPTY native pair string, `pair_exchange_to_std`
returns without raising: the canonical pair from the reverse table on a hit;
on a miss, the first-character-stripped remainder when the string starts with
the funding prefix character, and the no-mapping value otherwise.  The empty
string, when absent from the reverse table, instead raises `IndexError` (see
the counterexample). -/
theorem pair_exchange_to_std_total (r : Registry) (pair : String) (h : pair ≠ "") :
    exceptOk (pair_exchange_to_std r pair) = true ∧
    (∀ std, r.exchange_to_std pair = some std →
        pair_exchange_to_std r pair = .ok (some std)) ∧
    (∀ c rest, r.exchange_to_std pair = none → pair.data = c :: rest →
        pair_exchange_to_std r pair =
          .ok (if c = 'f' then some (String.mk rest) else none)) := by
  have hne : pair.data ≠ [] := by
    intro hnil
    apply h
    cases pair with
    | mk l => cases hnil; rfl
  refine ⟨?_, ?_, ?_⟩
  · cases hm : r.exchange_to_std pair with
    | some std => simp only [pair_exchange_to_std, hm]; rfl
    | none =>
        cases hd : pair.data with
        | nil => exact absurd hd hne
        | cons c rest =>
            simp only [pair_exchange_to_std, hm, hd]
            by_cases hc : c = 'f' <;> simp [hc, exceptOk]
  · intro std hm
    simp only [pair_exchange_to_std, hm]
  · intro c rest hm hd
    simp only [pair_exchange_to_std, hm, hd]
    by_cases hc : c = 'f' <;> simp [hc]

/-- Witness for the amended C9 at a concrete input: a funding-prefixed pair
missing from an empty registry soft-fails into the stripped remainder. -/
theorem pair_exchange_to_std_total_witness :
    exceptOk (pair_exchange_to_std emptyRegistry "fUSD") = true :=
  (pair_exchange_to_std_total emptyRegistry "fUSD" (by decide)).1

/-! ## C8: `feed_to_exchange` -/

/-- C8: whenever the channel table's entry for (channel, exchange) equals the
UNSUPPORTED sentinel, `feed_to_exchange` raises `UnsupportedDataFeed` after
writing an error-level log line; and for the Poloniex dialect a channel value
absent from the channel table is not an error but is resolved as a tradable
pair through `pair_std_to_exchange`, this fallback being checked before any
raise. -/
theorem feed_to_exchange_spec (r : Registry) :
    (∀ exchange feed inner,
        listLookup feed feed_to_exchange_map = some inner →
        listLookup exchange inner = some (.str UNSUPPORTED) →
        feed_to_exchange r exchange feed = ⟨.error .UnsupportedDataFeed, true⟩) ∧
    (∀ feed, listLookup feed feed_to_exchange_map = none →
        feed_to_exchange r POLONIEX feed =
          ⟨Except.map ChanVal.str (pair_std_to_exchange r feed POLONIEX), false⟩) := by
  constructor
  · intro exchange feed inner hfeed hex
    unfold feed_to_exchange
    rw [if_neg ?hnc]
    case hnc =>
      intro hc
      rw [hfeed] at hc
      exact Option.noConfusion hc.2
    simp [hfeed, hex]
  · intro feed hfeed
    unfold feed_to_exchange
    rw [if_pos ⟨rfl, hfeed⟩]
    cases hp : pair_std_to_exchange r feed POLONIEX with
    | ok s => rfl
    | error e2 => rfl

/-- Witness for C8 at a concrete input: the L3 book channel on HitBTC is
UNSUPPORTED and raises `UnsupportedDataFeed` with the error logged. -/
theorem feed_to_exchange_spec_witness :
    feed_to_exchange emptyRegistry HITBTC L3_BOOK =
      ⟨.error .UnsupportedDataFeed, true⟩ :=
  (feed_to_exchange_spec emptyRegistry).1 HITBTC L3_BOOK _ rfl rfl

/-! ## C6: canonical/native pair round trip -/

/-- The (exchange, canonical, native) entries that a sequence of loads puts
into the registry (entries of dynamic exchanges are skipped by the load). -/
def loadedEntries (gen : GenPairs) : List String → List (String × String × String)
  | [] => []
  | ex :: rest =>
      (if ex ∈ dynamicExchanges then []
       else (gen ex).map (fun pe => (ex, pe.1, pe.2))) ++ loadedEntries gen rest

/-- Relation between a registry and the set `E` of loaded entries: the
reverse table only holds loaded canonical pairs, the forward table only holds
loaded (exchange, native) cells for non-dynamic exchanges, and every native
spelling present in the forward table has a reverse entry. -/
def RegInv (E : List (String × String × String)) (r : Registry) : Prop :=
  (∀ n s, r.exchange_to_std n = some s → ∃ ex, (ex, s, n) ∈ E) ∧
  (∀ p m ex n, r.std_trading_pairs p = some m → m ex = some n →
      ex ∉ dynamicExchanges ∧ (ex, p, n) ∈ E) ∧
  (∀ p m ex n, r.std_trading_pairs p = some m → m ex = some n →
      ∃ s, r.exchange_to_std n = some s)

theorem RegInv_empty (E : List (String × String × String)) : RegInv E emptyRegistry := by
  refine ⟨?_, ?_, ?_⟩
  · intro n s hc; exact Option.noConfusion hc
  · intro p m ex n hc _; exact Option.noConfusion hc
  · intro p m ex n hc _; exact Option.noConfusion hc

theorem RegInv_addEntry (E : List (String × String × String)) (r : Registry)
    (ex0 : String) (pe : String × String)
    (hdyn : ex0 ∉ dynamicExchanges) (hmem : (ex0, pe.1, pe.2) ∈ E)
    (hInv : RegInv E r) : RegInv E (addEntry ex0 r pe) := by
  obtain ⟨h1, h2, h3⟩ := hInv
  refine ⟨?_, ?_, ?_⟩
  · intro n s hn
    rw [show (addEntry ex0 r pe).exchange_to_std = updMap r.exchange_to_std pe.2 pe.1
      from rfl, updMap_app] at hn
    by_cases hc : n = pe.2
    · rw [if_pos hc] at hn
      injection hn with hs
      exact ⟨ex0, by rw [← hs, hc]; exact hmem⟩
    · rw [if_neg hc] at hn
      exact h1 n s hn
  · intro p m ex n hp hm
    rw [show (addEntry ex0 r pe).std_trading_pairs = updMap r.std_trading_pairs pe.1
      (fun ex2 => if ex2 = ex0 then some pe.2 else
        match r.std_trading_pairs pe.1 with
        | some m0 => m0 ex2
        | none => none) from rfl, updMap_app] at hp
    by_cases hc : p = pe.1
    · rw [if_pos hc] at hp
      injection hp with hmEq
      rw [← hmEq] at hm
      dsimp only at hm
      by_cases hce : ex = ex0
      · rw [if_pos hce] at hm
        injection hm with hn2
        refine ⟨by rw [hce]; exact hdyn, ?_⟩
        rw [hce, hc, ← hn2]
        exact hmem
      · rw [if_neg hce] at hm
        cases hp0 : r.std_trading_pairs pe.1 with
        | some m0 =>
            rw [hp0] at hm
            obtain ⟨hd2, hmem2⟩ := h2 pe.1 m0 ex n hp0 hm
            exact ⟨hd2, by rw [hc]; exact hmem2⟩
        | none => rw [hp0] at hm; exact Option.noConfusion hm
    · rw [if_neg hc] at hp
      exact h2 p m ex n hp hm
  · intro p m ex n hp hm
    rw [show (addEntry ex0 r pe).exchange_to_std = updMap r.exchange_to_std pe.2 pe.1
      from rfl]
    rw [show (addEntry ex0 r pe).std_trading_pairs = updMap r.std_trading_pairs pe.1
      (fun ex2 => if ex2 = ex0 then some pe.2 else
        match r.std_trading_pairs pe.1 with
        | some m0 => m0 ex2
        | none => none) from rfl, updMap_app] at hp
    by_cases hcn : n = pe.2
    · exact ⟨pe.1, by rw [updMap_app, if_pos hcn]⟩
    · by_cases hc : p = pe.1
      · rw [if_pos hc] at hp
        injection hp with hmEq
        rw [← hmEq] at hm
        dsimp only at hm
        by_cases hce : ex = ex0
        · rw [if_pos hce] at hm
          injection hm with hn2
          exact absurd hn2.symm hcn
        · rw [if_neg hce] at hm
          cases hp0 : r.std_trading_pairs pe.1 with
          | some m0 =>
              rw [hp0] at hm
              obtain ⟨s, hs⟩ := h3 pe.1 m0 ex n hp0 hm
              exact ⟨s, by rw [updMap_app, if_neg hcn]; exact hs⟩
          | none => rw [hp0] at hm; exact Option.noConfusion hm
      · rw [if_neg hc] at hp
        obtain ⟨s, hs⟩ := h3 p m ex n hp hm
        exact ⟨s, by rw [updMap_app, if_neg hcn]; exact hs⟩

theorem RegInv_foldl (E : List (String × String × String)) (ex0 : String)
    (hdyn : ex0 ∉ dynamicExchanges) :
    ∀ (l : List (String × String)) (r : Registry), RegInv E r →
      (∀ pe ∈ l, (ex0, pe.1, pe.2) ∈ E) → RegInv E (l.foldl (addEntry ex0) r) := by
  intro l
  induction l with
  | nil => intro r h _; exact h
  | cons pe rest ih =>
      intro r h hmem
      rw [List.foldl_cons]
      exact ih (addEntry ex0 r pe)
        (RegInv_addEntry E r ex0 pe hdyn (hmem pe (List.mem_cons_self pe rest)) h)
        (fun pe2 hpe2 => hmem pe2 (List.mem_cons_of_mem pe hpe2))

theorem RegInv_loadAll (gen : GenPairs) (E : List (String × String × String)) :
    ∀ (exs : List String) (r : Registry), RegInv E r →
      (∀ ex ∈ exs, ex ∉ dynamicExchanges → ∀ pe ∈ gen ex, (ex, pe.1, pe.2) ∈ E) →
      RegInv E (loadAll gen exs r) := by
  intro exs
  induction exs with
  | nil => intro r h _; exact h
  | cons ex rest ih =>
      intro r h hmem
      rw [show loadAll gen (ex :: rest) r =
        loadAll gen rest (load_exchange_pair_mapping gen ex r) from rfl]
      refine ih (load_exchange_pair_mapping gen ex r) ?_
        (fun ex2 hex2 => hmem ex2 (List.mem_cons_of_mem ex hex2))
      unfold load_exchange_pair_mapping
      by_cases hd : ex ∈ dynamicExchanges
      · rw [if_pos hd]; exact h
      · rw [if_neg hd]
        exact RegInv_foldl E ex hd (gen ex) r h
          (fun pe hpe => hmem ex (List.mem_cons_self ex rest) hd pe hpe)

theorem mem_loadedEntries (gen : GenPairs) :
    ∀ (exs : List String) (ex : String), ex ∈ exs → ex ∉ dynamicExchanges →
      ∀ pe ∈ gen ex, (ex, pe.1, pe.2) ∈ loadedEntries gen exs := by
  intro exs
  induction exs with
  | nil => intro ex hex; exact absurd hex (List.not_mem_nil ex)
  | cons ex1 rest ih =>
      intro ex hex hdyn pe hpe
      rw [show loadedEntries gen (ex1 :: rest) =
        (if ex1 ∈ dynamicExchanges then []
         else (gen ex1).map (fun pe2 => (ex1, pe2.1, pe2.2)))
          ++ loadedEntries gen rest from rfl]
      rcases List.mem_cons.mp hex with heq | hmem2
      · subst heq
        refine List.mem_append_left _ ?_
        rw [if_neg hdyn]
        exact List.mem_map.mpr ⟨pe, hpe, rfl⟩
      · exact List.mem_append_right _ (ih ex hmem2 hdyn pe hpe)

/-- C6 amended: the `BTC-USD` round trip through `pair_std_to_exchange` and
`pair_exchange_to_std` holds for every exchange for which `BTC-USD` is
registered, PROVIDED the loaded mappings are globally reverse-consistent: no
native spelling is assigned to two different canonical pairs across the
loaded exchanges.  Without that proviso a later load overwrites the shared
reverse table and the round trip fails (see the counterexample). -/
theorem pair_round_trip (gen : GenPairs) (exs : List String) (ex native : String)
    (m : String → Option String)
    (hcons : ∀ e1 s1 e2 s2 n, (e1, s1, n) ∈ loadedEntries gen exs →
        (e2, s2, n) ∈ loadedEntries gen exs → s1 = s2)
    (hreg : (loadAll gen exs emptyRegistry).std_trading_pairs "BTC-USD" = some m)
    (hm : m ex = some native) :
    pair_std_to_exchange (loadAll gen exs emptyRegistry) "BTC-USD" ex = .ok native ∧
    pair_exchange_to_std (loadAll gen exs emptyRegistry) native = .ok (some "BTC-USD") := by
  have hinv := RegInv_loadAll gen (loadedEntries gen exs) exs emptyRegistry
    (RegInv_empty _) (fun ex2 hex hdyn pe hpe => mem_loadedEntries gen exs ex2 hex hdyn pe hpe)
  obtain ⟨h1, h2, h3⟩ := hinv
  obtain ⟨hdyn, hmemBTC⟩ := h2 "BTC-USD" m ex native hreg hm
  constructor
  · unfold pair_std_to_exchange
    rw [if_neg hdyn]
    simp only [hreg, hm]
  · obtain ⟨s, hs⟩ := h3 "BTC-USD" m ex native hreg hm
    obtain ⟨ex2, hmem2⟩ := h1 native s hs
    have hseq : s = "BTC-USD" := hcons ex2 s ex "BTC-USD" native hmem2 hmemBTC
    unfold pair_exchange_to_std
    rw [hs, hseq]

/-- A single-exchange mapping registering `BTC-USD` as `XXBTUSD` on
COINBASE. -/
def genSingle : GenPairs := fun ex =>
  if ex = "COINBASE" then [("BTC-USD", "XXBTUSD")] else []

/-- Witness for the amended C6 at a concrete input: the round trip on the
one-exchange registry. -/
theorem pair_round_trip_witness :
    pair_std_to_exchange (loadAll genSingle ["COINBASE"] emptyRegistry)
        "BTC-USD" "COINBASE" = .ok "XXBTUSD" ∧
    pair_exchange_to_std (loadAll genSingle ["COINBASE"] emptyRegistry)
        "XXBTUSD" = .ok (some "BTC-USD") :=
  pair_round_trip genSingle ["COINBASE"] "COINBASE" "XXBTUSD"
    (fun e => if e = "COINBASE" then some "XXBTUSD" else none)
    (by
      intro e1 s1 e2 s2 n h1x h2x
      have hL : loadedEntries genSingle ["COINBASE"] =
        [("COINBASE", "BTC-USD", "XXBTUSD")] := rfl
      rw [hL, List.mem_singleton] at h1x h2x
      simp only [Prod.mk.injEq] at h1x h2x
      rw [h1x.2.1, h2x.2.1])
    rfl rfl

/-- Two mappings that assign the same native spelling `XXBTUSD` to different
canonical pairs on two different (non-dynamic) exchanges. -/
def genClash : GenPairs := fun ex =>
  if ex = "COINBASE" then [("BTC-USD", "XXBTUSD")]
  else if ex = "KRAKEN" then [("BTC-USDT", "XXBTUSD")] else []

def regClash : Registry := loadAll genClash ["COINBASE", "KRAKEN"] emptyRegistry

/-- Counterexample to C6 as stated: after loading COINBASE (where `BTC-USD`
is registered as `XXBTUSD`) and then KRAKEN (where `BTC-USDT` is registered
under the same native spelling), the round trip for `BTC-USD` on COINBASE
returns `BTC-USDT`, not `BTC-USD`: the shared reverse table was overwritten
by the second load. -/
theorem pair_round_trip_counterexample :
    ((regClash.std_trading_pairs "BTC-USD").elim none (fun m => m "COINBASE") =
      some "XXBTUSD") ∧
    pair_std_to_exchange regClash "BTC-USD" "COINBASE" = .ok "XXBTUSD" ∧
    pair_exchange_to_std regClash "XXBTUSD" = .ok (some "BTC-USDT") :=
  ⟨rfl, rfl, rfl⟩
